import Mathlib

/-!
Verification of the CodeCoach session-and-memory coordination subsystem.

The first part embeds the client components found under
src/frontend/app (page.tsx, ChatInterface.tsx, SessionList.tsx,
CompactMemory.tsx, MemoryList.tsx): the HTTP requests each component
issues and the effect logic that decides when the chat view reloads a
session history.

The second part models the backend core (Session Store, Message Log,
Memory Store and their services), which is not part of the reviewed
frontend sources; it is modelled from the specification of the core
(sections 3, 4 and 6 of the design document).
-/

namespace CodeCoach

/-- Embedded from src/frontend/app/components/ChatInterface.tsx, interface
Message: a chat turn carries a role and an opaque content string. -/
structure Message where
  role : String
  content : String
deriving Repr, DecidableEq

/-- An HTTP request issued by the client, reduced to the data the client
puts into it: method, path, query parameters and JSON body fields. -/
structure ClientRequest where
  method : String
  path : String
  query : List (String × String)
  body : List (String × String)
deriving Repr, DecidableEq

/-- Embedded from src/frontend/app/page.tsx line 11: the single user
identifier the page ever holds (`useState('demo_user')`, never updated). -/
def homeUserId : String := "demo_user"

/-- Embedded from src/frontend/app/page.tsx, createNewSession:
POST /api/sessions with body \x7b userId, title: 'New Chat' \x7d. -/
def createSessionRequest (userId : String) : ClientRequest :=
  ⟨"POST", "/api/sessions", [], [("userId", userId), ("title", "New Chat")]⟩

/-- Embedded from src/frontend/app/components/SessionList.tsx, fetchSessions:
GET /api/sessions?userId=... -/
def fetchSessionsRequest (userId : String) : ClientRequest :=
  ⟨"GET", "/api/sessions", [("userId", userId)], []⟩

/-- Embedded from src/frontend/app/components/SessionList.tsx, handleDelete:
DELETE /api/sessions/\x7bsessionId\x7d with no query and no body. -/
def deleteSessionRequest (sessionId : String) : ClientRequest :=
  ⟨"DELETE", "/api/sessions/" ++ sessionId, [], []⟩

/-- Embedded from src/frontend/app/components/ChatInterface.tsx,
loadSessionMessages: GET /api/sessions/\x7bsessionId\x7d with no query and
no body. -/
def getSessionRequest (sessionId : String) : ClientRequest :=
  ⟨"GET", "/api/sessions/" ++ sessionId, [], []⟩

/-- Embedded from src/frontend/app/components/ChatInterface.tsx,
handleSubmit: POST /api/chat with body \x7b message, userId, sessionId \x7d. -/
def chatRequest (userId sessionId message : String) : ClientRequest :=
  ⟨"POST", "/api/chat", [],
    [("message", message), ("userId", userId), ("sessionId", sessionId)]⟩

/-- Embedded from src/frontend/app/components/CompactMemory.tsx,
fetchMemories: GET /api/memories?userId=...&sessionId=... -/
def compactMemoriesRequest (userId sessionId : String) : ClientRequest :=
  ⟨"GET", "/api/memories", [("userId", userId), ("sessionId", sessionId)], []⟩

/-- Embedded from src/frontend/app/components/CompactMemory.tsx,
deleteMemory: DELETE /api/memories/\x7bmemoryId\x7d?userId=...&sessionId=... -/
def compactDeleteMemoryRequest (userId sessionId memoryId : String) : ClientRequest :=
  ⟨"DELETE", "/api/memories/" ++ memoryId,
    [("userId", userId), ("sessionId", sessionId)], []⟩

/-- Embedded from src/frontend/app/components/MemoryList.tsx, fetchMemories:
GET /api/memories?userId=demo_user — the user id is hardcoded in the URL,
independent of any prop. -/
def memoryPageFetchRequest : ClientRequest :=
  ⟨"GET", "/api/memories", [("userId", "demo_user")], []⟩

/-- Embedded from src/frontend/app/components/MemoryList.tsx, clearMemories:
DELETE /api/memories?userId=demo_user — hardcoded user id. -/
def memoryPageClearRequest : ClientRequest :=
  ⟨"DELETE", "/api/memories", [("userId", "demo_user")], []⟩

/-- Embedded from src/frontend/app/components/MemoryList.tsx, deleteMemory:
DELETE /api/memories/\x7bmemoryId\x7d?userId=demo_user — hardcoded user id. -/
def memoryPageDeleteRequest (memoryId : String) : ClientRequest :=
  ⟨"DELETE", "/api/memories/" ++ memoryId, [("userId", "demo_user")], []⟩

/-- The requests the client can ever issue, as the components are wired in
src/frontend/app/page.tsx: SessionList, CompactMemory and ChatInterface all
receive the page user id (homeUserId) as their userId prop, while MemoryList
receives no prop at all and hardcodes its user id. Session ids, memory ids
and chat messages are arbitrary strings. -/
inductive clientIssues : ClientRequest → Prop
  | createSession : clientIssues (createSessionRequest homeUserId)
  | fetchSessions : clientIssues (fetchSessionsRequest homeUserId)
  | deleteSession (sid : String) : clientIssues (deleteSessionRequest sid)
  | getSession (sid : String) : clientIssues (getSessionRequest sid)
  | chat (sid msg : String) : clientIssues (chatRequest homeUserId sid msg)
  | compactList (sid : String) : clientIssues (compactMemoriesRequest homeUserId sid)
  | compactDelete (sid mid : String) :
      clientIssues (compactDeleteMemoryRequest homeUserId sid mid)
  | pageList : clientIssues memoryPageFetchRequest
  | pageClear : clientIssues memoryPageClearRequest
  | pageDelete (mid : String) : clientIssues (memoryPageDeleteRequest mid)

/-- All userId values a request carries, in its query string or its body. -/
def requestUserIds (r : ClientRequest) : List String :=
  ((r.query ++ r.body).filter (fun p => p.1 == "userId")).map (fun p => p.2)

/-- Embedded from src/frontend/app/components/ChatInterface.tsx lines 25 and
40-46: the component keeps prevSessionIdRef, initialised with the sessionId
prop of the first render; on every change of the sessionId prop it calls
loadSessionMessages (a GET of the session) only when the new value differs
from the ref, and only then updates the ref. Given the initial ref value and
the sequence of subsequent sessionId prop values, this returns the sequence
of session ids for which loadSessionMessages fires. -/
def chatLoadCalls : String → List String → List String
  | _, [] => []
  | prev, s :: rest =>
    if s == prev then chatLoadCalls prev rest
    else s :: chatLoadCalls s rest

/-- Modelled from the spec: the backend Session entity (design document
section 3) is not part of the reviewed frontend sources. A Session has an
opaque unique id (modelled as a natural number drawn from a fresh counter),
an immutable owner, a mutable title, an append-only ordered message list,
and creation and update timestamps. -/
structure Session where
  id : Nat
  userId : String
  title : String
  messages : List Message
  createdAt : Nat
  updatedAt : Nat
deriving Repr, DecidableEq

/-- Modelled from the spec: the backend Memory entity (design document
section 3) is not part of the reviewed frontend sources. A Memory has an
opaque unique id, a required owning user, an optional session scope, opaque
content, an importance score supplied by the caller, a free-form type tag and
a creation timestamp. -/
structure Memory where
  id : Nat
  userId : String
  sessionId : Option Nat
  content : String
  importance : Rat
  type : String
  timestamp : Nat
deriving Repr, DecidableEq

/-- Modelled from the spec: the error taxonomy of the core that the claims
exercise (design document section 7) — unknown ids, or ids not owned by the
given user, signal NotFound. -/
inductive CoreError where
  | notFound
deriving Repr, DecidableEq

/-- Modelled from the spec: the combined state of the two independent stores
(design document sections 2 and 3). Fresh ids come from per-store counters;
a logical clock supplies timestamps and advances on every state-changing
operation, so later operations carry later timestamps. -/
structure CoreState where
  sessions : List Session
  memories : List Memory
  nextSessionId : Nat
  nextMemoryId : Nat
  now : Nat
deriving Repr, DecidableEq

/-- The empty initial state of the core. -/
def initState : CoreState := ⟨[], [], 0, 0, 0⟩

/-- Look a session up by id in a list of sessions. -/
def findIn (l : List Session) (sid : Nat) : Option Session :=
  l.find? (fun s => s.id == sid)

/-- Look a session up by id in the Session Store. -/
def findSession (st : CoreState) (sid : Nat) : Option Session :=
  findIn st.sessions sid

/-- Modelled from the spec: create(userId, title) (section 4.1) — always
succeeds, assigns a fresh unique id, initialises messages empty, and sets
createdAt = updatedAt = now. -/
def createSession (st : CoreState) (userId title : String) : Session × CoreState :=
  let s : Session := ⟨st.nextSessionId, userId, title, [], st.now, st.now⟩
  (s, { st with sessions := st.sessions ++ [s],
                nextSessionId := st.nextSessionId + 1,
                now := st.now + 1 })

/-- Modelled from the spec: get(sessionId) -> Session | NotFound
(section 4.1). -/
def getSession (st : CoreState) (sid : Nat) : Except CoreError Session :=
  match findSession st sid with
  | some s => .ok s
  | none => .error .notFound

/-- Modelled from the spec: appendMessage(sessionId, role, content)
(section 4.1) — appends to the end of the session message list and bumps
updatedAt, atomically with the append; an unknown id yields NotFound and
leaves the state untouched. -/
def appendMessage (st : CoreState) (sid : Nat) (role content : String) :
    Except CoreError Session × CoreState :=
  match findSession st sid with
  | none => (.error .notFound, st)
  | some s =>
    let s' : Session :=
      { s with messages := s.messages ++ [⟨role, content⟩], updatedAt := st.now }
    (.ok s',
     { st with sessions := st.sessions.map (fun t => if t.id == sid then s' else t),
               now := st.now + 1 })

/-- Modelled from the spec: rename(sessionId, title) (section 4.1) — updates
the title and bumps updatedAt; an unknown id yields NotFound. -/
def renameSession (st : CoreState) (sid : Nat) (title : String) :
    Except CoreError Session × CoreState :=
  match findSession st sid with
  | none => (.error .notFound, st)
  | some s =>
    let s' : Session := { s with title := title, updatedAt := st.now }
    (.ok s',
     { st with sessions := st.sessions.map (fun t => if t.id == sid then s' else t),
               now := st.now + 1 })

/-- Modelled from the spec: delete(sessionId) (section 4.1) — removes the
Session and its full Message Log as a single atomic unit; an unknown id
yields NotFound. -/
def deleteSession (st : CoreState) (sid : Nat) : Except CoreError Unit × CoreState :=
  match findSession st sid with
  | none => (.error .notFound, st)
  | some _ =>
    (.ok (),
     { st with sessions := st.sessions.filter (fun s => !(s.id == sid)),
               now := st.now + 1 })

/-- Modelled from the spec: the Session summary returned by listByUser
(section 4.1) — id, title, timestamps, and a preview derived from the last
message content, truncated to a bounded length. -/
structure SessionSummary where
  id : Nat
  title : String
  createdAt : Nat
  updatedAt : Nat
  preview : Option String
deriving Repr, DecidableEq

/-- The bounded preview length used by listSessions. -/
def previewLength : Nat := 50

/-- Summarise one session for listByUser. -/
def sessionSummary (s : Session) : SessionSummary :=
  ⟨s.id, s.title, s.createdAt, s.updatedAt,
   s.messages.getLast?.map (fun m => m.content.take previewLength)⟩

/-- The recency order of listByUser: a summary comes before another when its
updatedAt is at least as large (updatedAt descending). -/
def moreRecent (a b : SessionSummary) : Prop := b.updatedAt ≤ a.updatedAt

instance : DecidableRel moreRecent := fun a b => Nat.decLe b.updatedAt a.updatedAt

instance : IsTotal SessionSummary moreRecent :=
  ⟨fun a b => (Nat.le_total a.updatedAt b.updatedAt).symm⟩

instance : IsTrans SessionSummary moreRecent :=
  ⟨fun _ _ _ h h2 => Nat.le_trans h2 h⟩

/-- Modelled from the spec: listByUser(userId) (section 4.1) — the summaries
of the sessions owned by the user, ordered by updatedAt descending. -/
def listSessions (st : CoreState) (userId : String) : List SessionSummary :=
  List.insertionSort moreRecent
    ((st.sessions.filter (fun s => s.userId == userId)).map sessionSummary)

/-- Modelled from the spec: insert(userId, sessionId?, content, importance,
type) (section 4.2) — always succeeds, assigns id and timestamp. -/
def insertMemory (st : CoreState) (userId : String) (sessionId : Option Nat)
    (content : String) (importance : Rat) (mtype : String) : Memory × CoreState :=
  let m : Memory := ⟨st.nextMemoryId, userId, sessionId, content, importance,
                     mtype, st.now⟩
  (m, { st with memories := st.memories ++ [m],
                nextMemoryId := st.nextMemoryId + 1,
                now := st.now + 1 })

/-- Modelled from the spec: the scope filter of listByScope (section 4.2) —
with a session id given, a memory is visible when it belongs to the user and
is either scoped to that session or user-global; with no session id, every
memory of the user is visible. -/
def memoryInScope (userId : String) (sessionId : Option Nat) (m : Memory) : Bool :=
  m.userId == userId &&
    match sessionId with
    | none => true
    | some sid => m.sessionId == some sid || m.sessionId == none

/-- The presentation order of listByScope: most recent first (timestamp
descending). -/
def newerMemory (a b : Memory) : Prop := b.timestamp ≤ a.timestamp

instance : DecidableRel newerMemory := fun a b => Nat.decLe b.timestamp a.timestamp

instance : IsTotal Memory newerMemory :=
  ⟨fun a b => (Nat.le_total a.timestamp b.timestamp).symm⟩

instance : IsTrans Memory newerMemory :=
  ⟨fun _ _ _ h h2 => Nat.le_trans h2 h⟩

/-- Modelled from the spec: listByScope(userId, sessionId?) (section 4.2) —
the in-scope memories, ordered by timestamp descending. -/
def listMemories (st : CoreState) (userId : String) (sessionId : Option Nat) :
    List Memory :=
  List.insertionSort newerMemory (st.memories.filter (memoryInScope userId sessionId))

/-- Modelled from the spec: deleteOne(userId, memoryId) (section 4.2) — the
userId argument is a scoping guard: only a memory with both the given id and
the given owner is removed; otherwise the call yields NotFound and changes
nothing. -/
def deleteMemory (st : CoreState) (userId : String) (mid : Nat) :
    Except CoreError Unit × CoreState :=
  match st.memories.find? (fun m => m.id == mid && m.userId == userId) with
  | none => (.error .notFound, st)
  | some _ =>
    (.ok (),
     { st with memories := st.memories.filter (fun m => !(m.id == mid && m.userId == userId)),
               now := st.now + 1 })

/-- Modelled from the spec: clearAll(userId) (section 4.2) — removes every
Memory owned by the user regardless of session scope and returns the count
deleted; always succeeds, zero deletions being a non-error outcome. -/
def clearMemories (st : CoreState) (userId : String) : Nat × CoreState :=
  ((st.memories.filter (fun m => m.userId == userId)).length,
   { st with memories := st.memories.filter (fun m => !(m.userId == userId)),
             now := st.now + 1 })

/-- One state-changing operation of the Coordinator interface (design
document section 6). Read-only operations (GetSession, ListSessions,
ListMemories) do not change state and are applied directly in theorems. -/
inductive Op where
  | createSession (userId title : String)
  | appendMessage (sessionId : Nat) (role content : String)
  | renameSession (sessionId : Nat) (title : String)
  | deleteSession (sessionId : Nat)
  | insertMemory (userId : String) (sessionId : Option Nat) (content : String)
      (importance : Rat) (mtype : String)
  | deleteMemory (userId : String) (memoryId : Nat)
  | clearMemories (userId : String)
deriving Repr, DecidableEq

/-- The state after one operation. -/
def applyOp (st : CoreState) : Op → CoreState
  | .createSession u t => (createSession st u t).2
  | .appendMessage sid r c => (appendMessage st sid r c).2
  | .renameSession sid t => (renameSession st sid t).2
  | .deleteSession sid => (deleteSession st sid).2
  | .insertMemory u s c i ty => (insertMemory st u s c i ty).2
  | .deleteMemory u m => (deleteMemory st u m).2
  | .clearMemories u => (clearMemories st u).2

/-- The state after a sequence of operations. -/
def runOps (st : CoreState) : List Op → CoreState
  | [] => st
  | op :: ops => runOps (applyOp st op) ops

/-- The messages contributed by the successful AppendMessage calls against
session sid within a trace, in call order: an append succeeds exactly when
the session exists at that point. -/
def successfulAppends (st : CoreState) (sid : Nat) : List Op → List Message
  | [] => []
  | op :: ops =>
    let tail := successfulAppends (applyOp st op) sid ops
    match op with
    | .appendMessage s role content =>
      if s == sid && (findSession st s).isSome then ⟨role, content⟩ :: tail
      else tail
    | _ => tail

/-- A concrete trace used by witnesses: the two-turn scenario of the design
document, section 8. -/
def demoOps : List Op :=
  [.createSession ("alice") ("New Chat"),
   .appendMessage 0 ("user") ("hi"),
   .appendMessage 0 ("assistant") ("hello")]

/-- A concrete trace used by witnesses: the recency-ordering scenario —
create sessions A then B, then append a message to A. -/
def recencyOps : List Op :=
  [.createSession ("alice") ("A"),
   .createSession ("alice") ("B"),
   .appendMessage 0 ("user") ("hi")]

/-- The session the demo trace produces. -/
def demoSession : Session :=
  ⟨0, "alice", "New Chat", [⟨"user", "hi"⟩, ⟨"assistant", "hello"⟩], 0, 2⟩

/-- A concrete store holding one memory owned by bob, used by witnesses. -/
def bobState : CoreState :=
  ⟨[], [⟨0, "bob", none, "likes DP", 1, "preference", 0⟩], 0, 1, 1⟩

/-- Every session id present in the store is below the fresh-id counter, so a
newly created session can never collide with an existing or previously
deleted one. -/
def sessionIdsBounded (st : CoreState) : Prop :=
  ∀ s ∈ st.sessions, s.id < st.nextSessionId

theorem findIn_append (l₁ l₂ : List Session) (sid : Nat) :
    findIn (l₁ ++ l₂) sid = (findIn l₁ sid).or (findIn l₂ sid) :=
  List.find?_append

theorem findIn_eq_none (l : List Session) (sid : Nat) (h : ∀ s ∈ l, s.id ≠ sid) :
    findIn l sid = none :=
  List.find?_eq_none.mpr (fun x hx => by simpa using h x hx)

theorem findIn_update_self (l : List Session) (sid : Nat) (s' : Session)
    (h : s'.id = sid) :
    findIn (l.map (fun t => if t.id == sid then s' else t)) sid =
      (findIn l sid).map (fun _ => s') := by
  induction l with
  | nil => rfl
  | cons a l ih =>
    by_cases ha : a.id = sid
    · simp [findIn, List.find?_cons, ha, h]
    · simpa [findIn, List.find?_cons, ha] using ih

theorem findIn_update_ne (l : List Session) (sid sid' : Nat) (s' : Session)
    (h : s'.id = sid) (hne : sid' ≠ sid) :
    findIn (l.map (fun t => if t.id == sid then s' else t)) sid' = findIn l sid' := by
  induction l with
  | nil => rfl
  | cons a l ih =>
    by_cases ha : a.id = sid
    · simpa [findIn, List.find?_cons, ha, h, hne, Ne.symm hne] using ih
    · by_cases ha' : a.id = sid'
      · simp [findIn, List.find?_cons, ha, ha', hne, Ne.symm hne]
      · simpa [findIn, List.find?_cons, ha, ha', hne, Ne.symm hne] using ih

theorem findIn_filter_self (l : List Session) (sid : Nat) :
    findIn (l.filter (fun s => !(s.id == sid))) sid = none :=
  List.find?_eq_none.mpr (fun x hx => by
    have hx2 := (List.mem_filter.mp hx).2
    simp at hx2 ⊢
    exact hx2)

theorem findIn_filter_ne (l : List Session) (sid sid' : Nat) (hne : sid' ≠ sid) :
    findIn (l.filter (fun s => !(s.id == sid))) sid' = findIn l sid' := by
  induction l with
  | nil => rfl
  | cons a l ih =>
    by_cases ha : a.id = sid
    · have ha' : a.id ≠ sid' := by rw [ha]; exact Ne.symm hne
      simpa [findIn, List.filter_cons, List.find?_cons, ha, ha', hne, Ne.symm hne] using ih
    · by_cases ha' : a.id = sid'
      · simp [findIn, List.filter_cons, List.find?_cons, ha, ha', hne, Ne.symm hne]
      · simpa [findIn, List.filter_cons, List.find?_cons, ha, ha', hne, Ne.symm hne] using ih

theorem findSession_mem (st : CoreState) (sid : Nat) (s : Session)
    (h : findSession st sid = some s) : s ∈ st.sessions :=
  List.mem_of_find?_eq_some h

theorem findSession_id (st : CoreState) (sid : Nat) (s : Session)
    (h : findSession st sid = some s) : s.id = sid := by
  have h2 := List.find?_some h
  simpa using h2

theorem sessionIdsBounded_applyOp (st : CoreState) (op : Op)
    (h : sessionIdsBounded st) : sessionIdsBounded (applyOp st op) := by
  cases op with
  | createSession u t =>
    intro s hs
    simp [applyOp, createSession] at hs ⊢
    rcases hs with hs | hs
    · exact Nat.lt_succ_of_lt (h s hs)
    · subst hs; exact Nat.lt_succ_self _
  | appendMessage sid r c =>
    intro s hs
    cases hf : findSession st sid with
    | none => simp [applyOp, appendMessage, hf] at hs ⊢; exact h s hs
    | some s0 =>
      have hmem := findSession_mem st sid s0 hf
      simp [applyOp, appendMessage, hf] at hs ⊢
      obtain ⟨t2, ht2, he⟩ := hs
      by_cases hc : t2.id = sid
      · rw [if_pos (by simpa using hc)] at he
        subst he; simpa using h s0 hmem
      · rw [if_neg (by simpa using hc)] at he
        subst he; exact h t2 ht2
  | renameSession sid t =>
    intro s hs
    cases hf : findSession st sid with
    | none => simp [applyOp, renameSession, hf] at hs ⊢; exact h s hs
    | some s0 =>
      have hmem := findSession_mem st sid s0 hf
      simp [applyOp, renameSession, hf] at hs ⊢
      obtain ⟨t2, ht2, he⟩ := hs
      by_cases hc : t2.id = sid
      · rw [if_pos (by simpa using hc)] at he
        subst he; simpa using h s0 hmem
      · rw [if_neg (by simpa using hc)] at he
        subst he; exact h t2 ht2
  | deleteSession sid =>
    intro s hs
    cases hf : findSession st sid with
    | none => simp [applyOp, deleteSession, hf] at hs ⊢; exact h s hs
    | some s0 =>
      simp [applyOp, deleteSession, hf] at hs ⊢
      exact h s hs.1
  | insertMemory u sid c i ty =>
    intro s hs
    simp [applyOp, insertMemory] at hs ⊢
    exact h s hs
  | deleteMemory u m =>
    intro s hs
    cases hm : st.memories.find? (fun x => x.id == m && x.userId == u) with
    | none => simp [applyOp, deleteMemory, hm] at hs ⊢; exact h s hs
    | some m0 => simp [applyOp, deleteMemory, hm] at hs ⊢; exact h s hs
  | clearMemories u =>
    intro s hs
    simp [applyOp, clearMemories] at hs ⊢
    exact h s hs

theorem nextSessionId_applyOp (st : CoreState) (op : Op) :
    st.nextSessionId ≤ (applyOp st op).nextSessionId := by
  cases op with
  | createSession u t => simp [applyOp, createSession]
  | appendMessage sid r c =>
    cases hf : findSession st sid <;> simp [applyOp, appendMessage, hf]
  | renameSession sid t =>
    cases hf : findSession st sid <;> simp [applyOp, renameSession, hf]
  | deleteSession sid =>
    cases hf : findSession st sid <;> simp [applyOp, deleteSession, hf]
  | insertMemory u sid c i ty => simp [applyOp, insertMemory]
  | deleteMemory u m =>
    cases hm : st.memories.find? (fun x => x.id == m && x.userId == u) <;>
      simp [applyOp, deleteMemory, hm]
  | clearMemories u => simp [applyOp, clearMemories]

theorem findSession_none_runOps (ops : List Op) :
    ∀ st sid, sessionIdsBounded st → sid < st.nextSessionId →
      findSession st sid = none → findSession (runOps st ops) sid = none := by
  induction ops with
  | nil => intro st sid _ _ hn; simpa [runOps] using hn
  | cons op ops ih =>
    intro st sid hb hlt hn
    have hb' := sessionIdsBounded_applyOp st op hb
    have hlt' := Nat.lt_of_lt_of_le hlt (nextSessionId_applyOp st op)
    refine ih (applyOp st op) sid hb' hlt' ?_
    cases op with
    | createSession u t =>
      show findIn (st.sessions ++ [⟨st.nextSessionId, u, t, [], st.now, st.now⟩]) sid = none
      rw [findIn_append]
      have h1 : findIn st.sessions sid = none := hn
      rw [h1]
      have h2 : (st.nextSessionId == sid) = false := by
        simp [Nat.ne_of_gt hlt]
      simp [findIn, List.find?, h2]
    | appendMessage s r c =>
      cases hf : findSession st s with
      | none => simpa [applyOp, appendMessage, hf] using hn
      | some s0 =>
        have hid : s0.id = s := findSession_id st s s0 hf
        have hne : sid ≠ s := by
          intro he; rw [he] at hn; rw [hn] at hf; exact Option.noConfusion hf
        show findIn _ sid = none
        simp only [applyOp, appendMessage, hf]
        rw [findIn_update_ne st.sessions s sid _ (by simpa using hid) hne]
        exact hn
    | renameSession s t =>
      cases hf : findSession st s with
      | none => simpa [applyOp, renameSession, hf] using hn
      | some s0 =>
        have hid : s0.id = s := findSession_id st s s0 hf
        have hne : sid ≠ s := by
          intro he; rw [he] at hn; rw [hn] at hf; exact Option.noConfusion hf
        show findIn _ sid = none
        simp only [applyOp, renameSession, hf]
        rw [findIn_update_ne st.sessions s sid _ (by simpa using hid) hne]
        exact hn
    | deleteSession s =>
      cases hf : findSession st s with
      | none => simpa [applyOp, deleteSession, hf] using hn
      | some s0 =>
        by_cases he : sid = s
        · subst he
          show findIn _ sid = none
          simp only [applyOp, deleteSession, hf]
          exact findIn_filter_self st.sessions sid
        · show findIn _ sid = none
          simp only [applyOp, deleteSession, hf]
          rw [findIn_filter_ne st.sessions s sid he]
          exact hn
    | insertMemory u s c i ty => simpa [applyOp, insertMemory, findSession] using hn
    | deleteMemory u m =>
      cases hm : st.memories.find? (fun x => x.id == m && x.userId == u) <;>
        simpa [applyOp, deleteMemory, hm, findSession] using hn
    | clearMemories u => simpa [applyOp, clearMemories, findSession] using hn

/-- Main Message Log lemma: the messages of any session found after a trace
are the messages it had at the start of the trace followed by exactly the
successful appends against it, in call order. -/
theorem runOps_messages (ops : List Op) :
    ∀ st, sessionIdsBounded st → ∀ sid sess,
      findSession (runOps st ops) sid = some sess →
      sess.messages =
        (findSession st sid).elim [] Session.messages ++ successfulAppends st sid ops := by
  induction ops with
  | nil =>
    intro st _ sid sess h
    simp [runOps] at h
    simp [h, successfulAppends]
  | cons op ops ih =>
    intro st hb sid sess h
    have hb' := sessionIdsBounded_applyOp st op hb
    have hrun : findSession (runOps (applyOp st op) ops) sid = some sess := by
      simpa [runOps] using h
    have IH := ih (applyOp st op) hb' sid sess hrun
    cases op with
    | createSession u t =>
      by_cases he : sid = st.nextSessionId
      · have h0 : findSession st sid = none :=
          findIn_eq_none st.sessions sid (fun s hs => by
            rw [he]; exact Nat.ne_of_lt (hb s hs))
        have h1 : findSession (applyOp st (.createSession u t)) sid =
            some ⟨st.nextSessionId, u, t, [], st.now, st.now⟩ := by
          show findIn (st.sessions ++ [⟨st.nextSessionId, u, t, [], st.now, st.now⟩]) sid = _
          have h0' : findIn st.sessions sid = none := h0
          rw [findIn_append, h0']
          simp [findIn, List.find?, he]
        rw [h1] at IH
        simp only [Option.elim, List.nil_append] at IH
        rw [h0]
        simpa [successfulAppends] using IH
      · have h1 : findSession (applyOp st (.createSession u t)) sid = findSession st sid := by
          show findIn (st.sessions ++ [⟨st.nextSessionId, u, t, [], st.now, st.now⟩]) sid = _
          rw [findIn_append]
          have h2 : (st.nextSessionId == sid) = false := by
            simp; exact fun hh => he hh.symm
          have h3 : findIn [(⟨st.nextSessionId, u, t, [], st.now, st.now⟩ : Session)] sid = none := by
            simp [findIn, List.find?, h2]
          rw [h3, Option.or_none]
          rfl
        rw [h1] at IH
        simpa [successfulAppends] using IH
    | appendMessage s r c =>
      cases hf : findSession st s with
      | none =>
        have heq : applyOp st (.appendMessage s r c) = st := by
          simp [applyOp, appendMessage, hf]
        rw [heq] at IH
        have h2 : successfulAppends st sid (.appendMessage s r c :: ops) =
            successfulAppends st sid ops := by
          simp [successfulAppends, hf, heq]
        rw [h2]
        exact IH
      | some s0 =>
        have hid : s0.id = s := findSession_id st s s0 hf
        by_cases he : s = sid
        · subst he
          have h1 : findSession (applyOp st (.appendMessage s r c)) s =
              some { s0 with messages := s0.messages ++ [⟨r, c⟩], updatedAt := st.now } := by
            show findIn _ s = _
            simp only [applyOp, appendMessage, hf]
            rw [findIn_update_self st.sessions s _ (by simpa using hid)]
            have hf' : findIn st.sessions s = some s0 := hf
            rw [hf']
            rfl
          rw [h1] at IH
          simp only [Option.elim] at IH
          have h2 : successfulAppends st s (.appendMessage s r c :: ops) =
              Message.mk r c ::
                successfulAppends (applyOp st (.appendMessage s r c)) s ops := by
            simp [successfulAppends, hf]
          rw [h2, hf]
          simp only [Option.elim]
          rw [IH]
          simp
        · have h1 : findSession (applyOp st (.appendMessage s r c)) sid = findSession st sid := by
            show findIn _ sid = _
            simp only [applyOp, appendMessage, hf]
            exact findIn_update_ne st.sessions s sid _ (by simpa using hid) (Ne.symm he)
          rw [h1] at IH
          have h2 : successfulAppends st sid (.appendMessage s r c :: ops) =
              successfulAppends (applyOp st (.appendMessage s r c)) sid ops := by
            have h3 : (s == sid) = false := by simp [he]
            simp [successfulAppends, h3]
          rw [h2]
          exact IH
    | renameSession s t =>
      cases hf : findSession st s with
      | none =>
        have heq : applyOp st (.renameSession s t) = st := by
          simp [applyOp, renameSession, hf]
        rw [heq] at IH
        have h2 : successfulAppends st sid (.renameSession s t :: ops) =
            successfulAppends st sid ops := by
          simp [successfulAppends, heq]
        rw [h2]
        exact IH
      | some s0 =>
        have hid : s0.id = s := findSession_id st s s0 hf
        by_cases he : s = sid
        · subst he
          have h1 : findSession (applyOp st (.renameSession s t)) s =
              some { s0 with title := t, updatedAt := st.now } := by
            show findIn _ s = _
            simp only [applyOp, renameSession, hf]
            rw [findIn_update_self st.sessions s _ (by simpa using hid)]
            have hf' : findIn st.sessions s = some s0 := hf
            rw [hf']
            rfl
          rw [h1] at IH
          simp only [Option.elim] at IH
          have h2 : successfulAppends st s (.renameSession s t :: ops) =
              successfulAppends (applyOp st (.renameSession s t)) s ops := by
            simp [successfulAppends]
          rw [h2, hf]
          simpa using IH
        · have h1 : findSession (applyOp st (.renameSession s t)) sid = findSession st sid := by
            show findIn _ sid = _
            simp only [applyOp, renameSession, hf]
            exact findIn_update_ne st.sessions s sid _ (by simpa using hid) (Ne.symm he)
          rw [h1] at IH
          have h2 : successfulAppends st sid (.renameSession s t :: ops) =
              successfulAppends (applyOp st (.renameSession s t)) sid ops := by
            simp [successfulAppends]
          rw [h2]
          exact IH
    | deleteSession s =>
      cases hf : findSession st s with
      | none =>
        have heq : applyOp st (.deleteSession s) = st := by
          simp [applyOp, deleteSession, hf]
        rw [heq] at IH
        have h2 : successfulAppends st sid (.deleteSession s :: ops) =
            successfulAppends st sid ops := by
          simp [successfulAppends, heq]
        rw [h2]
        exact IH
      | some s0 =>
        by_cases he : sid = s
        · exfalso
          subst he
          have hid : s0.id = sid := findSession_id st sid s0 hf
          have hmem := findSession_mem st sid s0 hf
          have hlt : sid < st.nextSessionId := by
            have := hb s0 hmem; rwa [hid] at this
          have h1 : findSession (applyOp st (.deleteSession sid)) sid = none := by
            show findIn _ sid = none
            simp only [applyOp, deleteSession, hf]
            exact findIn_filter_self st.sessions sid
          have hlt' : sid < (applyOp st (.deleteSession sid)).nextSessionId :=
            Nat.lt_of_lt_of_le hlt (nextSessionId_applyOp st (.deleteSession sid))
          have h2 := findSession_none_runOps ops (applyOp st (.deleteSession sid)) sid hb' hlt' h1
          rw [h2] at hrun
          exact Option.noConfusion hrun
        · have h1 : findSession (applyOp st (.deleteSession s)) sid = findSession st sid := by
            show findIn _ sid = _
            simp only [applyOp, deleteSession, hf]
            exact findIn_filter_ne st.sessions s sid he
          rw [h1] at IH
          have h2 : successfulAppends st sid (.deleteSession s :: ops) =
              successfulAppends (applyOp st (.deleteSession s)) sid ops := by
            simp [successfulAppends]
          rw [h2]
          exact IH
    | insertMemory u s c i ty =>
      have h1 : findSession (applyOp st (.insertMemory u s c i ty)) sid = findSession st sid := by
        simp [applyOp, insertMemory, findSession]
      rw [h1] at IH
      have h2 : successfulAppends st sid (.insertMemory u s c i ty :: ops) =
          successfulAppends (applyOp st (.insertMemory u s c i ty)) sid ops := by
        simp [successfulAppends]
      rw [h2]
      exact IH
    | deleteMemory u m =>
      have h1 : findSession (applyOp st (.deleteMemory u m)) sid = findSession st sid := by
        cases hm : st.memories.find? (fun x => x.id == m && x.userId == u) <;>
          simp [applyOp, deleteMemory, hm, findSession]
      rw [h1] at IH
      have h2 : successfulAppends st sid (.deleteMemory u m :: ops) =
          successfulAppends (applyOp st (.deleteMemory u m)) sid ops := by
        simp [successfulAppends]
      rw [h2]
      exact IH
    | clearMemories u =>
      have h1 : findSession (applyOp st (.clearMemories u)) sid = findSession st sid := by
        simp [applyOp, clearMemories, findSession]
      rw [h1] at IH
      have h2 : successfulAppends st sid (.clearMemories u :: ops) =
          successfulAppends (applyOp st (.clearMemories u)) sid ops := by
        simp [successfulAppends]
      rw [h2]
      exact IH

/-- C1: For every session, the messages sequence returned by GetSession after
any trace of operations from the initial state equals the exact sequence of
successful AppendMessage calls against that session, in call order, with each
message role and content stored and returned verbatim — no reordering, loss,
or in-place edits. -/
theorem getSession_messages_eq_successfulAppends (ops : List Op) (sid : Nat)
    (sess : Session) (h : getSession (runOps initState ops) sid = .ok sess) :
    sess.messages = successfulAppends initState sid ops := by
  have hb : sessionIdsBounded initState := by
    intro s hs
    simp [initState] at hs
  have hf : findSession (runOps initState ops) sid = some sess := by
    cases hfs : findSession (runOps initState ops) sid with
    | none => simp [getSession, hfs] at h
    | some s2 =>
      simp [getSession, hfs] at h
      rw [h]
  have h2 := runOps_messages ops initState hb sid sess hf
  simpa [initState, findSession, findIn] using h2

/-- Witness for C1 at the two-turn demo trace of the design document. -/
theorem getSession_messages_eq_successfulAppends_witness :
    getSession (runOps initState demoOps) 0 = .ok demoSession ∧
      demoSession.messages = successfulAppends initState 0 demoOps :=
  ⟨rfl, getSession_messages_eq_successfulAppends demoOps 0 demoSession rfl⟩

/-- C2: deleting a session never deletes any Memory, and clearing or deleting
memories for a user never deletes any Session — for every state, DeleteSession
leaves the Memory store unchanged, and ClearMemories and DeleteMemory leave
the Session store unchanged. -/
theorem stores_independent (st : CoreState) (sid : Nat) (u : String) (mid : Nat) :
    (deleteSession st sid).2.memories = st.memories ∧
    (clearMemories st u).2.sessions = st.sessions ∧
    (deleteMemory st u mid).2.sessions = st.sessions := by
  refine ⟨?_, ?_, ?_⟩
  · cases hf : findSession st sid <;> simp [deleteSession, hf]
  · simp [clearMemories]
  · cases hm : st.memories.find? (fun x => x.id == mid && x.userId == u) <;>
      simp [deleteMemory, hm]

/-- C6: for every session id, DeleteSession followed by GetSession always
yields NotFound — never a stale or partial Session: the session and its full
message log are removed as one unit, and nothing of them remains observable. -/
theorem getSession_after_deleteSession (st : CoreState) (sid : Nat) :
    getSession (deleteSession st sid).2 sid = .error .notFound := by
  cases hf : findSession st sid with
  | none => simp [getSession, deleteSession, hf]
  | some s0 =>
    have h1 : findSession (deleteSession st sid).2 sid = none := by
      simp only [deleteSession, hf]
      exact findIn_filter_self st.sessions sid
    simp [getSession, h1]

theorem length_filter_not_add (l : List Memory) (p : Memory → Bool) :
    (l.filter p).length + (l.filter (fun x => !(p x))).length = l.length := by
  induction l with
  | nil => rfl
  | cons a l ih => cases ha : p a <;> simp [List.filter_cons, ha] <;> omega

/-- C3: for every user u and session s, ListMemories(u, s) returns exactly
the memories with userId u that are scoped to s or globally scoped — and no
memory of another user or of a different session; with the session omitted it
returns all memories of u regardless of scope. -/
theorem listMemories_scope (st : CoreState) (u : String) (s : Nat) (m : Memory) :
    (m ∈ listMemories st u (some s) ↔
      m ∈ st.memories ∧ m.userId = u ∧ (m.sessionId = some s ∨ m.sessionId = none)) ∧
    (m ∈ listMemories st u none ↔ m ∈ st.memories ∧ m.userId = u) := by
  constructor
  · rw [listMemories, List.mem_insertionSort, List.mem_filter]
    simp [memoryInScope, and_assoc]
  · rw [listMemories, List.mem_insertionSort, List.mem_filter]
    simp [memoryInScope]

/-- C4: deleting a memory id that does not exist with the given owner —
whether the id is unknown or the memory belongs to a different user — yields
NotFound and returns the store completely unchanged, exactly as for an
unknown id: no cross-user deletion and no observable distinction. -/
theorem deleteMemory_wrong_user_notFound (st : CoreState) (u : String) (mid : Nat)
    (h : ∀ m ∈ st.memories, m.id = mid → m.userId ≠ u) :
    deleteMemory st u mid = (.error .notFound, st) := by
  have hf : st.memories.find? (fun m => m.id == mid && m.userId == u) = none := by
    apply List.find?_eq_none.mpr
    intro x hx
    simp
    intro hxid
    exact h x hx hxid
  simp [deleteMemory, hf]

/-- Witness for C4: bob owns memory 0, so deleting it as alice is NotFound
and changes nothing. -/
theorem deleteMemory_wrong_user_notFound_witness :
    (∀ m ∈ bobState.memories, m.id = 0 → m.userId ≠ "alice") ∧
      deleteMemory bobState ("alice") 0 = (.error .notFound, bobState) :=
  ⟨by decide, deleteMemory_wrong_user_notFound bobState ("alice") 0 (by decide)⟩

/-- C5: ClearMemories(u) removes every memory owned by u regardless of
session scope and none of any other user, reports exactly the number of
memories deleted, always succeeds, and a subsequent ListMemories(u) under any
scope returns the empty sequence. -/
theorem clearMemories_clears_exactly_user (st : CoreState) (u : String) :
    (∀ m ∈ (clearMemories st u).2.memories, m.userId ≠ u) ∧
    (∀ m ∈ st.memories, m.userId ≠ u → m ∈ (clearMemories st u).2.memories) ∧
    (∀ m ∈ (clearMemories st u).2.memories, m ∈ st.memories) ∧
    (clearMemories st u).1 + (clearMemories st u).2.memories.length = st.memories.length ∧
    (∀ scope, listMemories (clearMemories st u).2 u scope = []) := by
  have hmem : ∀ m ∈ (clearMemories st u).2.memories, m.userId ≠ u := by
    intro m hm
    have hm2 : m ∈ st.memories.filter (fun x => !(x.userId == u)) := by
      simpa only [clearMemories] using hm
    have h2 := List.mem_filter.mp hm2
    simpa using h2.2
  refine ⟨hmem, ?_, ?_, ?_, ?_⟩
  · intro m hm hne
    simp [clearMemories, List.mem_filter]
    exact ⟨hm, hne⟩
  · intro m hm
    have hm2 : m ∈ st.memories.filter (fun x => !(x.userId == u)) := by
      simpa only [clearMemories] using hm
    exact List.mem_of_mem_filter hm2
  · simpa [clearMemories] using length_filter_not_add st.memories (fun m => m.userId == u)
  · intro scope
    have h1 : (clearMemories st u).2.memories.filter (memoryInScope u scope) = [] := by
      apply List.filter_eq_nil_iff.mpr
      intro a ha
      have h2 : a.userId ≠ u := hmem a ha
      simp [memoryInScope, h2]
    show List.insertionSort newerMemory
      ((clearMemories st u).2.memories.filter (memoryInScope u scope)) = []
    rw [h1]
    rfl

/-- C7: listSessions is ordered by updatedAt descending (moreRecent is the
pairwise relation: every earlier summary has an updatedAt at least that of
every later one), and in the scenario that creates session A (id 0) then
session B (id 1) and then appends a message to A, the listing returns A
before B. -/
theorem listSessions_recency :
    (∀ (st : CoreState) (u : String), List.Pairwise moreRecent (listSessions st u)) ∧
    (listSessions (runOps initState recencyOps) ("alice")).map SessionSummary.id = [0, 1] := by
  constructor
  · intro st u
    exact List.sorted_insertionSort moreRecent _
  · rfl

/-- C8: failures are never silently swallowed and leave state untouched — a
failed appendMessage returns the state unchanged (in particular no updatedAt
bump), and clearAll reports exactly the number of memories it removed,
removing all matching memories, never a partial subset with a wrong count. -/
theorem failed_ops_leave_state (st : CoreState) (sid : Nat) (r c u : String) :
    (∀ e, (appendMessage st sid r c).1 = .error e → (appendMessage st sid r c).2 = st) ∧
    (clearMemories st u).1 + (clearMemories st u).2.memories.length = st.memories.length ∧
    (∀ m ∈ st.memories, m.userId = u → m ∉ (clearMemories st u).2.memories) := by
  refine ⟨?_, ?_, ?_⟩
  · intro e he
    cases hf : findSession st sid with
    | none => simp [appendMessage, hf]
    | some s0 => simp [appendMessage, hf] at he
  · simpa [clearMemories] using length_filter_not_add st.memories (fun m => m.userId == u)
  · intro m hm hmu hcontra
    have hm2 : m ∈ st.memories.filter (fun x => !(x.userId == u)) := by
      simpa only [clearMemories] using hcontra
    have h2 := List.mem_filter.mp hm2
    simp [hmu] at h2

/-- Witness for C8: appending to the unknown session 0 of the empty store
fails and leaves the store exactly as it was. -/
theorem failed_ops_leave_state_witness :
    (appendMessage initState 0 ("user") ("hi")).2 = initState :=
  (failed_ops_leave_state initState 0 ("user") ("hi") ("alice")).1 CoreError.notFound rfl

/-- C9: the chat interface calls GetSession only when the selected sessionId
changes to a value different from the one the previous-session ref holds: as
long as every rendered sessionId equals the one assigned at first mount, no
load is ever issued (so persisted messages of that first session are never
fetched for display), while switching away and back fires a load for each
change, the return included. -/
theorem chat_loads_only_on_session_change :
    (∀ (initial : String) (props : List String),
        (∀ x ∈ props, x = initial) → chatLoadCalls initial props = []) ∧
    chatLoadCalls ("s0") ["s1", "s0"] = ["s1", "s0"] := by
  constructor
  · intro initial props h
    induction props with
    | nil => rfl
    | cons s rest ih =>
      have hs : s = initial := h s (List.mem_cons_self s rest)
      have hrest : ∀ x ∈ rest, x = initial := fun x hx => h x (List.mem_cons_of_mem s hx)
      subst hs
      simpa [chatLoadCalls] using ih hrest
  · rfl

/-- Witness for C9: a constant sessionId sequence never triggers a load. -/
theorem chat_loads_only_on_session_change_witness :
    chatLoadCalls ("a") ["a", "a"] = [] :=
  chat_loads_only_on_session_change.1 ("a") ["a", "a"] (by decide)

/-- Counterexample for C10 as stated: the session-deletion request the client
issues (SessionList handleDelete) carries no userId at all, so not every
session/memory request carries the constant userId demo_user. -/
theorem client_requests_userid_counterexample :
    ¬ ∀ r, clientIssues r → ("demo_user" : String) ∈ requestUserIds r := by
  intro h
  have h2 := h (deleteSessionRequest ("s1")) (clientIssues.deleteSession ("s1"))
  simp [requestUserIds, deleteSessionRequest] at h2

/-- C10 (amended): every userId any client request carries — in query or
body — is the single constant demo_user; the full-page memory list hardcodes
it independently of any prop, and the remaining requests receive it from the
page. Session fetch and deletion requests carry no userId at all, so no
request ever names a different user. -/
theorem client_requests_carry_only_demo_user (r : ClientRequest)
    (h : clientIssues r) : ∀ u ∈ requestUserIds r, u = "demo_user" := by
  cases h <;> intro u hu <;>
    simp [requestUserIds, createSessionRequest, fetchSessionsRequest,
      deleteSessionRequest, getSessionRequest, chatRequest,
      compactMemoriesRequest, compactDeleteMemoryRequest,
      memoryPageFetchRequest, memoryPageClearRequest, memoryPageDeleteRequest,
      homeUserId, List.filter_cons] at hu <;>
    exact hu

/-- Witness for C10 (amended) at the hardcoded clear-memories request of the
full-page memory list. -/
theorem client_requests_carry_only_demo_user_witness :
    ("demo_user" : String) = "demo_user" :=
  client_requests_carry_only_demo_user memoryPageClearRequest
    clientIssues.pageClear ("demo_user") (by decide)

end CodeCoach
